import Mathlib

/-!
Verification of the tunnel core of the `yes` repository (src/client.py,
src/server.py): a TCP-over-chat tunnel whose peers exchange line-oriented
frames (CONNECT/OK/SEND/RECV/CLOSE/CLOSED), number data frames with per-stream
sequence counters, and reassemble them with a per-stream reorder buffer.

The definitions below are a shallow embedding of the Python source:
  * payload bytes are modelled as `List Nat`;
  * Python dicts are modelled as association lists with overwrite-on-insert
    (`insertKey`), since the source only ever observes dicts through
    membership, lookup, item assignment and `pop`/`del` — never through
    iteration order;
  * the per-stream sequence record `{'send_seq', 'recv_seq', 'recv_buffer'}`
    becomes `SeqState`;
  * the `while next_seq in recv_buffer` flush loop of both receivers becomes
    `drainBufferFuel`, with fuel `recvBuffer.length` — an exact bound, since
    every iteration pops one entry from the buffer;
  * the chat transport is abstracted away: handlers become pure functions
    from state and (parsed) frame to state plus a list of emitted effects
    (frames sent, sockets dialed/written/closed, pipe writes).
-/

/-- Payload bytes (`bytes` in the Python source). -/
abbrev Bytes := List Nat

/-- Python `d[k]` / `k in d` lookup on an association-list dict. -/
def lookupKey {κ α : Type} [DecidableEq κ] (k : κ) : List (κ × α) → Option α
  | [] => none
  | e :: rest => if k = e.1 then some e.2 else lookupKey k rest

/-- Python `del d[k]` / `d.pop(k)` key removal on an association-list dict. -/
def eraseKey {κ α : Type} [DecidableEq κ] (k : κ) : List (κ × α) → List (κ × α)
  | [] => []
  | e :: rest => if e.1 = k then eraseKey k rest else e :: eraseKey k rest

/-- Python `d[k] = v` assignment (overwrite) on an association-list dict. -/
def insertKey {κ α : Type} [DecidableEq κ] (k : κ) (v : α) (l : List (κ × α)) : List (κ × α) :=
  (k, v) :: eraseKey k l

/-- Per-stream sequence record: `stream_seqs[stream_id] =
{'send_seq': int, 'recv_seq': int, 'recv_buffer': dict}` (client.py line 143,
server.py line 53). -/
structure SeqState where
  sendSeq : Nat
  recvSeq : Nat
  recvBuffer : List (Nat × Bytes)
deriving DecidableEq

/-- The receivers' flush loop (client.py lines 177-186, server.py lines
117-128): `while next_seq in recv_buffer: deliver(recv_buffer.pop(next_seq));
recv_seq += 1`.  Returns the new buffer, the new `recv_seq`, and the list of
delivered entries tagged with the `recv_seq` value current at each write.
The loop pops one buffer entry per iteration, so `fuel = buffer.length`
(as used by `drainBuffer`) makes the recursion exact. -/
def drainBufferFuel : Nat → List (Nat × Bytes) → Nat → List (Nat × Bytes) × Nat × List (Nat × Bytes)
  | 0, buf, r => (buf, r, [])
  | fuel + 1, buf, r =>
    match lookupKey r buf with
    | some v =>
      let res := drainBufferFuel fuel (eraseKey r buf) (r + 1)
      (res.1, res.2.1, (r, v) :: res.2.2)
    | none => (buf, r, [])

/-- The flush loop entered with the stream's current buffer. -/
def drainBuffer (buf : List (Nat × Bytes)) (r : Nat) :
    List (Nat × Bytes) × Nat × List (Nat × Bytes) :=
  drainBufferFuel buf.length buf r

/-- One inbound data frame `(seq, data)` against a stream's sequence state:
the common reorder logic of `handle_recv` (client.py lines 168-192) and
`send` (server.py lines 104-134).  `if seq_num == expected_seq:` deliver and
flush the buffer, `else:` store `recv_buffer[seq_num] = data`.  Returns the
new state and the delivered chunks, each tagged with the `recv_seq` at which
it was written to the sink. -/
def handleData (st : SeqState) (seq : Nat) (data : Bytes) : SeqState × List (Nat × Bytes) :=
  if seq = st.recvSeq then
    let res := drainBuffer st.recvBuffer (st.recvSeq + 1)
    (⟨st.sendSeq, res.2.1, res.1⟩, (st.recvSeq, data) :: res.2.2)
  else
    (⟨st.sendSeq, st.recvSeq, insertKey seq data st.recvBuffer⟩, [])

/-- Deliver a list of inbound data frames to one stream, in arrival order,
accumulating the sink writes. -/
def processFrames : SeqState → List (Nat × Bytes) → SeqState × List (Nat × Bytes)
  | st, [] => (st, [])
  | st, f :: rest =>
    let r1 := handleData st f.1 f.2
    let r2 := processFrames r1.1 rest
    (r2.1, r1.2 ++ r2.2)

/-- Invariant tying a stream's receive state to the set `S` of sequence
numbers already handled, when the inbound frames are `(i, p i)` for distinct
`i < N`: everything below `recv_seq` has been handled and delivered in order,
`recv_seq` itself is still missing, and the reorder buffer holds exactly the
handled frames above `recv_seq`. -/
def ReorderInv (N : Nat) (p : Nat → Bytes) (S : Finset Nat) (st : SeqState)
    (out : List (Nat × Bytes)) : Prop :=
  (∀ i, i < st.recvSeq → i ∈ S) ∧
  st.recvSeq ∉ S ∧
  (∀ k ∈ S, k < N) ∧
  out = (List.range st.recvSeq).map (fun i => (i, p i)) ∧
  (∀ k, lookupKey k st.recvBuffer = if k ∈ S ∧ st.recvSeq < k then some (p k) else none)

/-- Character of the standard base64 alphabet at a 6-bit index
(`base64.b64encode`, standard alphabet, no URL variant). -/
def b64Char (n : Nat) : Char :=
  "ABCDEFGHIJKLMNOPQRSTUVWXYZabcdefghijklmnopqrstuvwxyz0123456789+/".toList.getD n 'A'

/-- Standard base64 text of a byte string, with `=` padding, as produced by
`b64encode(data).decode('utf-8')` in both peers.  Three input bytes become
four alphabet characters; a final group of one or two bytes is padded. -/
def b64encode : Bytes → List Char
  | [] => []
  | [a] => [b64Char (a / 4), b64Char (a % 4 * 16), '=', '=']
  | [a, b] => [b64Char (a / 4), b64Char (a % 4 * 16 + b / 16), b64Char (b % 16 * 4), '=']
  | a :: b :: c :: rest =>
    b64Char (a / 4) :: b64Char (a % 4 * 16 + b / 16) ::
      b64Char (b % 16 * 4 + c / 64) :: b64Char (c % 64) :: b64encode rest

/-- A data frame emitted by a peer, before rendering to text:
`verb` is `SEND` (client) or `RECV` (server). -/
structure FrameOut where
  verb : String
  streamId : String
  seq : Nat
  payload : Bytes
deriving DecidableEq

/-- Rendered frame text `f"{verb} {stream_id} {seq} {b64}"` (client.py
line 125, server.py line 76); for the ASCII ids and payloads in play, one
`Char` is one byte. -/
def frameText (f : FrameOut) : List Char :=
  f.verb.toList ++ [' '] ++ f.streamId.toList ++ [' ']
    ++ (Nat.repr f.seq).toList ++ [' '] ++ b64encode f.payload

/-- The client write-buffer's auto-flush threshold
`4096 - len(f"SEND {stream_id} 9999 ".encode("utf-8"))` (client.py line 109);
ids are ASCII hex, so UTF-8 byte length is character count. -/
def wbBufferSize (streamId : String) : Nat :=
  4096 - ("SEND " ++ streamId ++ " 9999 ").toList.length

/-- State of one client `AsyncWriteBuffer`: the accumulating byte buffer and
the stream's `send_seq` counter (held in `stream_seqs[stream_id]` in the
source, read and incremented only by this buffer's `flush`). -/
structure WbState where
  sendSeq : Nat
  buffer : Bytes
deriving DecidableEq

/-- `AsyncWriteBuffer.flush` (client.py lines 117-127): if the buffer is
nonempty, reserve `seq = send_seq; send_seq += 1`, emit
`SEND <stream_id> <seq> <b64>`, clear the buffer. -/
def wbFlush (streamId : String) (st : WbState) : WbState × List FrameOut :=
  if st.buffer = [] then (st, [])
  else (⟨st.sendSeq + 1, []⟩, [⟨"SEND", streamId, st.sendSeq, st.buffer⟩])

/-- `AsyncWriteBuffer.write` (client.py lines 111-115): append, then
auto-flush when `len(buffer) >= buffer_size`. -/
def wbWrite (streamId : String) (bufSize : Nat) (st : WbState) (data : Bytes) :
    WbState × List FrameOut :=
  let st1 : WbState := ⟨st.sendSeq, st.buffer ++ data⟩
  if bufSize ≤ st1.buffer.length then wbFlush streamId st1 else (st1, [])

/-- An operation the proxy pump performs on a write buffer. -/
inductive WbOp where
  | write (data : Bytes)
  | flushOp
deriving DecidableEq

/-- A sequence of write/flush operations against one client write buffer,
collecting every emitted SEND frame. -/
def wbRun (streamId : String) (bufSize : Nat) : WbState → List WbOp → WbState × List FrameOut
  | st, [] => (st, [])
  | st, op :: ops =>
    let r1 := match op with
      | WbOp.write d => wbWrite streamId bufSize st d
      | WbOp.flushOp => wbFlush streamId st
    let r2 := wbRun streamId bufSize r1.1 ops
    (r2.1, r1.2 ++ r2.2)

/-- The server's per-stream socket reader emitting data frames (server.py
lines 56-77): for each nonempty 1024-byte chunk, reserve
`seq = send_seq; send_seq += 1` and emit `RECV <stream_id> <seq> <b64>`;
an empty chunk is EOF and stops the loop (the EOF actions themselves are
`serverReaderEof`). -/
def serverReaderEmit (streamId : String) : Nat → List Bytes → Nat × List FrameOut
  | seq, [] => (seq, [])
  | seq, c :: rest =>
    if c = [] then (seq, [])
    else
      let r := serverReaderEmit streamId (seq + 1) rest
      (r.1, ⟨"RECV", streamId, seq, c⟩ :: r.2)

/-- Observable side effects of the server peer: dialing the target, sending
a chat message, closing a TCP socket, writing bytes to a TCP socket. -/
inductive ServerEvent where
  | dial (host : String) (port : Nat)
  | sendText (text : List Char)
  | closeSock (sock : Nat)
  | sockWrite (sock : Nat) (data : Bytes)
deriving DecidableEq

/-- Server registries (server.py lines 23-25): `connects` maps **stream_id**
to the TCP connection (modelled as a socket handle), `stream_seqs` maps
stream_id to sequence state.  Note `connects` is NOT keyed by request_id. -/
structure ServerState where
  connects : List (String × Nat)
  streamSeqs : List (String × SeqState)
deriving DecidableEq

/-- The server `connect` handler after parsing
`CONNECT <request_id> <host> <port>` (server.py lines 44-82), with the
`uuid4` stream id and the freshly dialed socket supplied as parameters:
`if request_id in connects:` ignore, else dial, register under the new
stream id, initialise sequence state, spawn the reader and emit
`OK <request_id> <stream_id>`. -/
def serverConnect (st : ServerState) (requestId host : String) (port : Nat)
    (newStreamId : String) (newSock : Nat) : ServerState × List ServerEvent :=
  if (lookupKey requestId st.connects).isSome then (st, [])
  else
    (⟨insertKey newStreamId newSock st.connects,
      insertKey newStreamId ⟨0, 0, []⟩ st.streamSeqs⟩,
     [ServerEvent.dial host port,
      ServerEvent.sendText (("OK " ++ requestId ++ " " ++ newStreamId).toList)])

/-- The server `send` handler after parsing `SEND <stream_id> <seq> <b64>`
and base64-decoding the payload (server.py lines 92-134): unknown stream or
missing sequence state is logged and dropped; otherwise the reorder logic
(`handleData`) runs and each delivered chunk is written to the TCP socket. -/
def serverSendData (st : ServerState) (streamId : String) (seq : Nat) (data : Bytes) :
    ServerState × List ServerEvent :=
  match lookupKey streamId st.connects with
  | none => (st, [])
  | some sock =>
    match lookupKey streamId st.streamSeqs with
    | none => (st, [])
    | some ss =>
      let r := handleData ss seq data
      (⟨st.connects, insertKey streamId r.1 st.streamSeqs⟩,
       r.2.map (fun x => ServerEvent.sockWrite sock x.2))

/-- ASCII word character of the regex class `\w` (the ids in play are ASCII). -/
def isWordChar (c : Char) : Bool := c.isAlphanum || c == '_'

/-- Match of a regex `^<tag>(\w+)$` against a single-line text: the text is
the tag followed by one or more word characters, which are returned. -/
def parseTail (tag : List Char) (text : List Char) : Option (List Char) :=
  let rest := text.drop tag.length
  if text.take tag.length = tag ∧ rest ≠ [] ∧ rest.all isWordChar = true then some rest
  else none

/-- `re.search(r"^CLOSE (\w+)$", text)` of the server `close` handler
(server.py line 140). -/
def parseCloseText (text : List Char) : Option (List Char) :=
  parseTail "CLOSE ".toList text

/-- `re.search(r"^CLOSED (\w+)$", text)` of the client `handle_close`
handler (client.py line 199). -/
def parseClosedText (text : List Char) : Option (List Char) :=
  parseTail "CLOSED ".toList text

/-- The server `close` handler (server.py lines 136-156): on
`CLOSE <stream_id>` for a registered stream, close the socket and delete
both registry entries.  It sends nothing. -/
def serverClose (st : ServerState) (text : List Char) : ServerState × List ServerEvent :=
  match parseCloseText text with
  | none => (st, [])
  | some sidChars =>
    let sid := String.mk sidChars
    match lookupKey sid st.connects with
    | none => (st, [])
    | some sock =>
      (⟨eraseKey sid st.connects, eraseKey sid st.streamSeqs⟩, [ServerEvent.closeSock sock])

/-- The EOF branch of the server's per-stream reader (server.py lines
58-67): delete the stream from both registries and emit
`f"CLOSED {request_id} {stream_id}"` — request id AND stream id. -/
def serverReaderEof (st : ServerState) (requestId streamId : String) :
    ServerState × List ServerEvent :=
  (⟨eraseKey streamId st.connects, eraseKey streamId st.streamSeqs⟩,
   [ServerEvent.sendText (("CLOSED " ++ requestId ++ " " ++ streamId).toList)])

/-- Observable side effect of the client receive path: a write into a
stream's virtual read pipe. -/
inductive ClientEvent where
  | pipeWrite (streamId : String) (data : Bytes)
deriving DecidableEq

/-- Client registries (client.py lines 29-31): `connects` is a list of
`(request_id, stream_id)` tuples (the per-stream pipes are abstracted into
`ClientEvent`s), `stream_seqs` maps stream_id to sequence state. -/
structure ClientState where
  connects : List (String × String)
  streamSeqs : List (String × SeqState)
deriving DecidableEq

/-- The client `handle_recv` handler after parsing
`RECV <stream_id> <seq> <b64>` and base64-decoding (client.py lines
154-192): unknown stream id or missing sequence state is logged and
dropped; otherwise the reorder logic runs and each delivered chunk is
written to the stream's read pipe. -/
def clientHandleRecvData (st : ClientState) (streamId : String) (seq : Nat) (data : Bytes) :
    ClientState × List ClientEvent :=
  if st.connects.any (fun c => c.2 == streamId) then
    match lookupKey streamId st.streamSeqs with
    | none => (st, [])
    | some ss =>
      let r := handleData ss seq data
      (⟨st.connects, insertKey streamId r.1 st.streamSeqs⟩,
       r.2.map (fun x => ClientEvent.pipeWrite streamId x.2))
  else (st, [])

/-- The client `handle_close` handler (client.py lines 195-212): if the text
matches `^CLOSED (\w+)$`, delete the sequence state of every stream whose
request id is the captured group and drop those entries from `connects`;
otherwise do nothing. -/
def clientHandleClose (st : ClientState) (text : List Char) : ClientState :=
  match parseClosedText text with
  | none => st
  | some ridChars =>
    let rid := String.mk ridChars
    let closedStreams := (st.connects.filter (fun c => c.1 == rid)).map (fun c => c.2)
    ⟨st.connects.filter (fun c => c.1 != rid),
     st.streamSeqs.filter (fun e => !(closedStreams.contains e.1))⟩

/-- State of the client's virtual byte pipe `AsyncBytesIO` (client.py lines
38-70): the queue of written-but-unread chunks, the partial-read buffer,
and the closed flag. -/
structure AsyncBytesIO where
  queue : List Bytes
  buffer : Bytes
  closed : Bool
deriving DecidableEq

/-- Python slice `b[:size]`, including the negative-index convention. -/
def pySliceTake (b : Bytes) (size : Int) : Bytes :=
  if 0 ≤ size then b.take size.toNat else b.take (b.length - (-size).toNat)

/-- Python slice `b[size:]`, including the negative-index convention. -/
def pySliceDrop (b : Bytes) (size : Int) : Bytes :=
  if 0 ≤ size then b.drop size.toNat else b.drop (b.length - (-size).toNat)

/-- The `read` loop of `AsyncBytesIO` (client.py lines 53-58):
`while len(buffer) < size or size == -1`, take the next queued chunk into
the buffer; when the queue is empty the 3-second `wait_for` times out and
the loop breaks.  Returns the remaining queue and the filled buffer. -/
def abFillLoop : List Bytes → Bytes → Int → List Bytes × Bytes
  | [], b, _ => ([], b)
  | d :: q, b, size =>
    if (b.length : Int) < size ∨ size = -1 then abFillLoop q (b ++ d) size else (d :: q, b)

/-- `AsyncBytesIO.write` (client.py lines 44-47): raise
`ValueError("I/O operation on closed file")` when closed, else enqueue. -/
def abWrite (p : AsyncBytesIO) (data : Bytes) : Except String AsyncBytesIO :=
  if p.closed then Except.error "I/O operation on closed file"
  else Except.ok ⟨p.queue ++ [data], p.buffer, p.closed⟩

/-- `AsyncBytesIO.read` (client.py lines 49-67): when closed, return `b""`
immediately; otherwise fill from the queue, then return `buffer[:size]`
keeping `buffer[size:]` (all of it for `size == -1`). -/
def abRead (p : AsyncBytesIO) (size : Int) : AsyncBytesIO × Bytes :=
  if p.closed then (p, [])
  else
    let r := abFillLoop p.queue p.buffer size
    if size = -1 then (⟨r.1, [], p.closed⟩, r.2)
    else (⟨r.1, pySliceDrop r.2 size, p.closed⟩, pySliceTake r.2 size)

/-- `AsyncBytesIO.close` (client.py lines 69-70): set the closed flag. -/
def abClose (p : AsyncBytesIO) : AsyncBytesIO := ⟨p.queue, p.buffer, true⟩

/-- A 32-hex-character stream id of the shape `uuid.uuid4().hex` produces. -/
def sid32 : String := "0123456789abcdef0123456789abcdef"

theorem lookupKey_eraseKey {κ α : Type} [DecidableEq κ] (k k' : κ) (l : List (κ × α)) :
    lookupKey k (eraseKey k' l) = if k = k' then none else lookupKey k l := by
  induction l with
  | nil => simp [eraseKey, lookupKey]
  | cons e rest ih =>
    by_cases he : e.1 = k'
    · by_cases hk : k = k'
      · simp only [eraseKey, he, if_pos, hk]
        simpa [hk] using ih
      · have hke : k ≠ e.1 := by rw [he]; exact hk
        simp [eraseKey, lookupKey, he, ih, hk, hke]
    · by_cases hk : k = e.1
      · have hkk : k ≠ k' := by rw [hk]; exact he
        simp [eraseKey, lookupKey, he, hk, hkk]
      · simp [eraseKey, lookupKey, he, hk, ih]

theorem lookupKey_insertKey {κ α : Type} [DecidableEq κ] (k k' : κ) (v : α) (l : List (κ × α)) :
    lookupKey k (insertKey k' v l) = if k = k' then some v else lookupKey k l := by
  by_cases hk : k = k' <;> simp [insertKey, lookupKey, hk, lookupKey_eraseKey]

theorem length_eraseKey_le {κ α : Type} [DecidableEq κ] (k : κ) (l : List (κ × α)) :
    (eraseKey k l).length ≤ l.length := by
  induction l with
  | nil => simp [eraseKey]
  | cons e rest ih =>
    by_cases he : e.1 = k <;> simp [eraseKey, he] <;> omega

theorem length_eraseKey_lt {κ α : Type} [DecidableEq κ] (k : κ) (l : List (κ × α)) (v : α)
    (h : lookupKey k l = some v) : (eraseKey k l).length < l.length := by
  induction l with
  | nil => simp [lookupKey] at h
  | cons e rest ih =>
    by_cases he : e.1 = k
    · have := length_eraseKey_le k rest
      simp [eraseKey, he]
      omega
    · have hke : k ≠ e.1 := fun hk => he (hk ▸ rfl)
      simp [lookupKey, hke] at h
      have := ih h
      simp [eraseKey, he]
      omega

/-- Claim C1 counterexample: with `recv_seq = 2` and an empty reorder buffer,
a replayed frame with `seq = 0 < recv_seq` is NOT discarded — it is stored
into the reorder buffer, so the stream state does not stay unchanged. -/
theorem replay_mutates_buffer_cex :
    (handleData ⟨0, 2, []⟩ 0 [7]).1 ≠ ⟨0, 2, []⟩ := by decide

/-- Claim C1 (amended): re-delivery of an already-consumed data frame
(`seq < recv_seq`) leaves `recv_seq` unchanged and causes no sink write, but
the frame is inserted into the reorder buffer under its stale key (rather
than discarded as in the spec's reference algorithm). -/
theorem replay_no_delivery (st : SeqState) (seq : Nat) (data : Bytes)
    (h : seq < st.recvSeq) :
    handleData st seq data
      = (⟨st.sendSeq, st.recvSeq, insertKey seq data st.recvBuffer⟩, []) := by
  have hne : seq ≠ st.recvSeq := Nat.ne_of_lt h
  simp [handleData, hne]

/-- Witness for `replay_no_delivery` at `recv_seq = 2`, `seq = 0`. -/
theorem replay_no_delivery_witness :
    (0 : Nat) < 2 ∧
    handleData ⟨0, 2, []⟩ 0 [7] = (⟨0, 2, insertKey 0 [7] []⟩, []) :=
  ⟨by decide, replay_no_delivery ⟨0, 2, []⟩ 0 [7] (by decide)⟩

theorem drainFuel_tags (fuel : Nat) : ∀ (buf : List (Nat × Bytes)) (r : Nat),
    r ≤ (drainBufferFuel fuel buf r).2.1 ∧
    (∀ x ∈ (drainBufferFuel fuel buf r).2.2, r ≤ x.1 ∧ x.1 < (drainBufferFuel fuel buf r).2.1) ∧
    List.Pairwise (fun a b : Nat × Bytes => a.1 < b.1) (drainBufferFuel fuel buf r).2.2 := by
  induction fuel with
  | zero => intro buf r; simp [drainBufferFuel]
  | succ fuel ih =>
    intro buf r
    cases hl : lookupKey r buf with
    | none => simp [drainBufferFuel, hl]
    | some v =>
      obtain ⟨h1, h2, h3⟩ := ih (eraseKey r buf) (r + 1)
      refine ⟨?_, ?_, ?_⟩
      · simp only [drainBufferFuel, hl]
        omega
      · intro x hx
        simp only [drainBufferFuel, hl, List.mem_cons] at hx ⊢
        rcases hx with hx | hx
        · subst hx; exact ⟨by simp, by simp; omega⟩
        · have := h2 x hx
          omega
      · simp only [drainBufferFuel, hl, List.pairwise_cons]
        refine ⟨fun x hx => ?_, h3⟩
        have := h2 x hx
        omega

theorem handleData_tags (st : SeqState) (seq : Nat) (data : Bytes) :
    st.recvSeq ≤ (handleData st seq data).1.recvSeq ∧
    (∀ x ∈ (handleData st seq data).2,
       st.recvSeq ≤ x.1 ∧ x.1 < (handleData st seq data).1.recvSeq) ∧
    List.Pairwise (fun a b : Nat × Bytes => a.1 < b.1) (handleData st seq data).2 := by
  by_cases hs : seq = st.recvSeq
  · obtain ⟨h1, h2, h3⟩ := drainFuel_tags st.recvBuffer.length st.recvBuffer (st.recvSeq + 1)
    refine ⟨?_, ?_, ?_⟩
    · simp only [handleData, hs, if_pos, drainBuffer]
      omega
    · intro x hx
      simp only [handleData, hs, if_pos, drainBuffer, List.mem_cons] at hx ⊢
      rcases hx with hx | hx
      · subst hx; simp; omega
      · have := h2 x hx
        omega
    · simp only [handleData, hs, if_pos, drainBuffer, List.pairwise_cons]
      refine ⟨fun x hx => ?_, h3⟩
      have := h2 x hx
      simp
      omega
  · simp [handleData, hs]

/-- Claim C10: at-most-once delivery.  Over any run of inbound data frames
against any starting stream state, the sink writes carry strictly increasing
`recv_seq` tags (each write happens at the then-current `recv_seq`, which the
code increments immediately after), all of them at or above the initial
`recv_seq` and below the final one.  Strict increase means no sequence slot
is ever delivered twice, and a reorder-buffer entry keyed below `recv_seq`
can never be delivered (pops happen only at the current `recv_seq`). -/
theorem delivery_at_most_once (st : SeqState) (frames : List (Nat × Bytes)) :
    List.Pairwise (fun a b : Nat × Bytes => a.1 < b.1) (processFrames st frames).2 ∧
    (∀ x ∈ (processFrames st frames).2,
       st.recvSeq ≤ x.1 ∧ x.1 < (processFrames st frames).1.recvSeq) ∧
    st.recvSeq ≤ (processFrames st frames).1.recvSeq := by
  induction frames generalizing st with
  | nil => simp [processFrames]
  | cons f rest ih =>
    obtain ⟨s1, s2, s3⟩ := handleData_tags st f.1 f.2
    obtain ⟨i1, i2, i3⟩ := ih (handleData st f.1 f.2).1
    refine ⟨?_, ?_, ?_⟩
    · simp only [processFrames, List.pairwise_append]
      refine ⟨s3, i1, fun a ha b hb => ?_⟩
      have ha' := s2 a ha
      have hb' := i2 b hb
      omega
    · intro x hx
      simp only [processFrames, List.mem_append] at hx
      rcases hx with hx | hx
      · have := s2 x hx
        simp only [processFrames]
        omega
      · have := i2 x hx
        simp only [processFrames]
        omega
    · simp only [processFrames]
      omega

/-- Claim C2 (code bug): on TCP EOF the server reader does remove the stream
from its registry, but it emits `CLOSED r1 s8` — the request id AND the
stream id, two identifiers — while the frame grammar says `CLOSED
<request_id>` and the client matches `^CLOSED (\w+)$`.  The client therefore
never matches the server's EOF frame: its CLOSED handler leaves the client
registry and sequence state untouched. -/
theorem closed_frame_mismatch :
    serverReaderEof ⟨[("s8", 5)], [("s8", ⟨0, 0, []⟩)]⟩ "r1" "s8"
      = (⟨[], []⟩, [ServerEvent.sendText ("CLOSED r1 s8".toList)]) ∧
    parseClosedText ("CLOSED r1 s8".toList) = none ∧
    clientHandleClose ⟨[("r1", "s8")], [("s8", ⟨0, 0, []⟩)]⟩ ("CLOSED r1 s8".toList)
      = ⟨[("r1", "s8")], [("s8", ⟨0, 0, []⟩)]⟩ := by
  refine ⟨by decide, by decide, by decide⟩

/-- Claim C4 (code bug): the replay guard `if request_id in connects` tests
the request id against a dict keyed by STREAM ids, so it never fires.  A
replayed `CONNECT r1 example.com 80` (same request id) dials the target a
second time, registers a second stream and emits a second OK. -/
theorem connect_replay_not_ignored :
    serverConnect ⟨[], []⟩ "r1" "example.com" 80 "aaa" 1
      = (⟨[("aaa", 1)], [("aaa", ⟨0, 0, []⟩)]⟩,
         [ServerEvent.dial "example.com" 80, ServerEvent.sendText ("OK r1 aaa".toList)]) ∧
    serverConnect ⟨[("aaa", 1)], [("aaa", ⟨0, 0, []⟩)]⟩ "r1" "example.com" 80 "bbb" 2
      = (⟨[("bbb", 2), ("aaa", 1)], [("bbb", ⟨0, 0, []⟩), ("aaa", ⟨0, 0, []⟩)]⟩,
         [ServerEvent.dial "example.com" 80, ServerEvent.sendText ("OK r1 bbb".toList)]) := by
  refine ⟨by decide, by decide⟩

/-- Claim C6 counterexample: on `CLOSE aaaa` for the registered stream
`aaaa`, the server closes the socket and removes the stream's state, but the
emitted event list contains no sent frame at all — no CLOSED is emitted. -/
theorem close_emits_no_closed_cex :
    serverClose ⟨[("aaaa", 5)], [("aaaa", ⟨0, 0, []⟩)]⟩ ("CLOSE aaaa".toList)
      = (⟨[], []⟩, [ServerEvent.closeSock 5]) ∧
    (serverClose ⟨[("aaaa", 5)], [("aaaa", ⟨0, 0, []⟩)]⟩ ("CLOSE aaaa".toList)).2.all
      (fun e => match e with | ServerEvent.sendText _ => false | _ => true) = true := by
  refine ⟨by decide, by decide⟩

/-- Claim C6 (amended): on `CLOSE <stream_id>` for a stream registered on
the server, the server closes the TCP socket and removes the registry entry
and sequence state, but emits NO `CLOSED` frame. -/
theorem close_removes_state (st : ServerState) (text sidChars : List Char) (sock : Nat)
    (hp : parseCloseText text = some sidChars)
    (hs : lookupKey (String.mk sidChars) st.connects = some sock) :
    serverClose st text
      = (⟨eraseKey (String.mk sidChars) st.connects,
          eraseKey (String.mk sidChars) st.streamSeqs⟩,
         [ServerEvent.closeSock sock]) := by
  simp [serverClose, hp, hs]

/-- Witness for `close_removes_state` on the stream `aaaa` with socket 5. -/
theorem close_removes_state_witness :
    parseCloseText ("CLOSE aaaa".toList) = some "aaaa".toList ∧
    lookupKey (String.mk "aaaa".toList) ([("aaaa", 5)] : List (String × Nat)) = some 5 ∧
    serverClose ⟨[("aaaa", 5)], [("aaaa", ⟨0, 0, []⟩)]⟩ ("CLOSE aaaa".toList)
      = (⟨eraseKey (String.mk "aaaa".toList) [("aaaa", 5)],
          eraseKey (String.mk "aaaa".toList) [("aaaa", ⟨0, 0, []⟩)]⟩,
         [ServerEvent.closeSock 5]) :=
  ⟨by decide, by decide,
   close_removes_state ⟨[("aaaa", 5)], [("aaaa", ⟨0, 0, []⟩)]⟩ ("CLOSE aaaa".toList)
     ("aaaa".toList) 5 (by decide) (by decide)⟩

/-- Claim C7 counterexample: write `[3, 7]` into a fresh pipe, read one byte
(leaving byte `7` buffered), close the pipe.  The next read returns empty
bytes immediately even though byte `7` was buffered before the close — the
buffer is not drained. -/
theorem pipe_close_drops_buffer_cex :
    abWrite ⟨[], [], false⟩ [3, 7] = Except.ok ⟨[[3, 7]], [], false⟩ ∧
    abRead ⟨[[3, 7]], [], false⟩ 1 = (⟨[], [7], false⟩, [3]) ∧
    abClose ⟨[], [7], false⟩ = ⟨[], [7], true⟩ ∧
    abRead ⟨[], [7], true⟩ 1 = (⟨[], [7], true⟩, []) := by
  refine ⟨rfl, by decide, by decide, by decide⟩

/-- Claim C7 (amended): after `close()` every subsequent `write` fails with
`ValueError("I/O operation on closed file")`, and every subsequent `read`
returns empty bytes immediately, discarding whatever was still buffered
(it does not drain the buffer first). -/
theorem pipe_closed_read_empty (p : AsyncBytesIO) (data : Bytes) (size : Int)
    (h : p.closed = true) :
    abWrite p data = Except.error "I/O operation on closed file" ∧
    abRead p size = (p, []) := by
  simp [abWrite, abRead, h]

/-- Witness for `pipe_closed_read_empty` on a closed pipe holding byte 7. -/
theorem pipe_closed_read_empty_witness :
    (⟨[], [7], true⟩ : AsyncBytesIO).closed = true ∧
    (abWrite ⟨[], [7], true⟩ [1] = Except.error "I/O operation on closed file" ∧
     abRead ⟨[], [7], true⟩ 1 = (⟨[], [7], true⟩, [])) :=
  ⟨rfl, pipe_closed_read_empty ⟨[], [7], true⟩ [1] 1 rfl⟩

/-- Claim C8: a SEND (server side) or RECV (client side) data frame whose
stream id is not in the receiving peer's registry is dropped: the peer's
state is returned unchanged and no sink write or any other effect occurs. -/
theorem unknown_stream_dropped (sst : ServerState) (cst : ClientState)
    (streamId : String) (seq : Nat) (data : Bytes)
    (hs : lookupKey streamId sst.connects = none)
    (hc : cst.connects.any (fun c => c.2 == streamId) = false) :
    serverSendData sst streamId seq data = (sst, []) ∧
    clientHandleRecvData cst streamId seq data = (cst, []) := by
  constructor
  · simp [serverSendData, hs]
  · simp [clientHandleRecvData, hc]

/-- Witness for `unknown_stream_dropped`: frame for stream `zzz` against
peers that each know only the stream `aaa`. -/
theorem unknown_stream_dropped_witness :
    lookupKey "zzz" ([("aaa", 3)] : List (String × Nat)) = none ∧
    ([(("r1" : String), ("aaa" : String))].any (fun c => c.2 == "zzz") = false) ∧
    (serverSendData ⟨[("aaa", 3)], [("aaa", ⟨0, 0, []⟩)]⟩ "zzz" 0 [0]
       = (⟨[("aaa", 3)], [("aaa", ⟨0, 0, []⟩)]⟩, []) ∧
     clientHandleRecvData ⟨[("r1", "aaa")], [("aaa", ⟨0, 0, []⟩)]⟩ "zzz" 0 [0]
       = (⟨[("r1", "aaa")], [("aaa", ⟨0, 0, []⟩)]⟩, [])) :=
  ⟨by decide, by decide,
   unknown_stream_dropped ⟨[("aaa", 3)], [("aaa", ⟨0, 0, []⟩)]⟩
     ⟨[("r1", "aaa")], [("aaa", ⟨0, 0, []⟩)]⟩ "zzz" 0 [0] (by decide) (by decide)⟩

theorem range'_append_own (s m n : Nat) :
    List.range' s m ++ List.range' (s + m) n = List.range' s (m + n) := by
  have h := List.range'_append s m n 1
  rw [Nat.one_mul] at h
  rw [Nat.add_comm n m] at h
  exact h

theorem seqs_glue (s s1 : Nat) (l1 l2 : List FrameOut)
    (h1 : l1.map FrameOut.seq = List.range' s l1.length) (hs : s1 = s + l1.length)
    (h2 : l2.map FrameOut.seq = List.range' s1 l2.length) :
    (l1 ++ l2).map FrameOut.seq = List.range' s (l1 ++ l2).length := by
  rw [List.map_append, h1, h2, hs, List.length_append, range'_append_own]

theorem wbFlush_seqs (streamId : String) (st : WbState) :
    (wbFlush streamId st).1.sendSeq = st.sendSeq + (wbFlush streamId st).2.length ∧
    (wbFlush streamId st).2.map FrameOut.seq
      = List.range' st.sendSeq (wbFlush streamId st).2.length := by
  by_cases h : st.buffer = [] <;> simp [wbFlush, h, List.range']

theorem wbWrite_seqs (streamId : String) (bufSize : Nat) (st : WbState) (data : Bytes) :
    (wbWrite streamId bufSize st data).1.sendSeq
      = st.sendSeq + (wbWrite streamId bufSize st data).2.length ∧
    (wbWrite streamId bufSize st data).2.map FrameOut.seq
      = List.range' st.sendSeq (wbWrite streamId bufSize st data).2.length := by
  by_cases hb : bufSize ≤ st.buffer.length + data.length
  · have h := wbFlush_seqs streamId ⟨st.sendSeq, st.buffer ++ data⟩
    simp only [wbWrite, List.length_append]
    rw [if_pos hb]
    exact h
  · simp only [wbWrite, List.length_append]
    rw [if_neg hb]
    simp [List.range']

theorem wbRun_seqs (streamId : String) (bufSize : Nat) (ops : List WbOp) :
    ∀ st : WbState,
      (wbRun streamId bufSize st ops).1.sendSeq
        = st.sendSeq + (wbRun streamId bufSize st ops).2.length ∧
      (wbRun streamId bufSize st ops).2.map FrameOut.seq
        = List.range' st.sendSeq (wbRun streamId bufSize st ops).2.length := by
  induction ops with
  | nil => intro st; simp [wbRun, List.range']
  | cons op ops ih =>
    intro st
    cases op with
    | write d =>
      obtain ⟨s1, s2⟩ := wbWrite_seqs streamId bufSize st d
      obtain ⟨i1, i2⟩ := ih (wbWrite streamId bufSize st d).1
      constructor
      · simp only [wbRun, List.length_append]
        omega
      · simp only [wbRun]
        exact seqs_glue st.sendSeq (wbWrite streamId bufSize st d).1.sendSeq _ _ s2 s1 i2
    | flushOp =>
      obtain ⟨s1, s2⟩ := wbFlush_seqs streamId st
      obtain ⟨i1, i2⟩ := ih (wbFlush streamId st).1
      constructor
      · simp only [wbRun, List.length_append]
        omega
      · simp only [wbRun]
        exact seqs_glue st.sendSeq (wbFlush streamId st).1.sendSeq _ _ s2 s1 i2

theorem serverReaderEmit_seqs (streamId : String) (chunks : List Bytes) :
    ∀ seq : Nat,
      (serverReaderEmit streamId seq chunks).1
        = seq + (serverReaderEmit streamId seq chunks).2.length ∧
      (serverReaderEmit streamId seq chunks).2.map FrameOut.seq
        = List.range' seq (serverReaderEmit streamId seq chunks).2.length := by
  induction chunks with
  | nil => intro seq; simp [serverReaderEmit, List.range']
  | cons c rest ih =>
    intro seq
    by_cases hc : c = []
    · simp [serverReaderEmit, hc, List.range']
    · obtain ⟨i1, i2⟩ := ih (seq + 1)
      constructor
      · simp only [serverReaderEmit]
        rw [if_neg hc]
        simp only [List.length_cons]
        omega
      · simp only [serverReaderEmit]
        rw [if_neg hc]
        simp only [List.map_cons, List.length_cons, i2]
        rfl

/-- Claim C9: sequence monotonicity.  For a fresh stream (`send_seq = 0`),
the SEND frames emitted by any run of the client write buffer and the RECV
frames emitted by the server's socket reader carry sequence numbers
`0, 1, 2, …` with no gaps (the k-th emitted frame has `seq = k`): every
emission reserves the next integer by incrementing `send_seq`. -/
theorem seq_monotone_gapfree (streamId : String) (bufSize : Nat) (ops : List WbOp)
    (chunks : List Bytes) :
    (wbRun streamId bufSize ⟨0, []⟩ ops).2.map FrameOut.seq
      = List.range (wbRun streamId bufSize ⟨0, []⟩ ops).2.length ∧
    (serverReaderEmit streamId 0 chunks).2.map FrameOut.seq
      = List.range (serverReaderEmit streamId 0 chunks).2.length := by
  constructor
  · rw [List.range_eq_range']
    exact (wbRun_seqs streamId bufSize ops ⟨0, []⟩).2
  · rw [List.range_eq_range']
    exact (serverReaderEmit_seqs streamId chunks 0).2

theorem b64_len_replicate_zero (n : Nat) :
    (b64encode (List.replicate (3 * n) 0)).length = 4 * n := by
  induction n with
  | zero => rfl
  | succ n ih =>
    have h3 : 3 * (n + 1) = 3 * n + 1 + 1 + 1 := by omega
    rw [h3, List.replicate_succ, List.replicate_succ, List.replicate_succ]
    simp only [b64encode, List.length_cons]
    omega

/-- Claim C3 (code bug): the client write buffer's flush threshold
(4096 minus the 43-character `SEND <32-hex id> 9999 ` header, i.e. 4053 raw
bytes) is applied BEFORE base64 expansion, so the very first threshold-sized
write already emits a SEND frame of 5444 characters — more than the 4096-byte
transport frame limit the computation aims at. -/
theorem send_frame_exceeds_limit :
    wbBufferSize sid32 = 4053 ∧
    (wbWrite sid32 (wbBufferSize sid32) ⟨0, []⟩ (List.replicate 4053 0)).2.map
        (fun f => (frameText f).length) = [5444] ∧
    4096 < 5444 := by
  have hbs : wbBufferSize sid32 = 4053 := by decide
  refine ⟨hbs, ?_, by omega⟩
  have hw : wbWrite sid32 (wbBufferSize sid32) ⟨0, []⟩ (List.replicate 4053 0)
      = (⟨1, []⟩, [⟨"SEND", sid32, 0, List.replicate 4053 0⟩]) := by
    rw [hbs]
    have hne : List.replicate 4053 (0 : Nat) ≠ [] := by
      intro h
      have hl := congrArg List.length h
      simp only [List.length_replicate, List.length_nil] at hl
      omega
    simp only [wbWrite, List.nil_append, List.length_replicate]
    rw [if_pos (by omega : (4053 : Nat) ≤ 4053)]
    simp only [wbFlush]
    rw [if_neg hne]
  rw [hw]
  have hb64 : (b64encode (List.replicate 4053 0)).length = 5404 := by
    have h := b64_len_replicate_zero 1351
    norm_num at h
    exact h
  have hv : ("SEND" : String).toList.length = 4 := by decide
  have hsid : sid32.toList.length = 32 := by decide
  have hr : (Nat.repr 0).toList.length = 1 := by decide
  simp only [List.map_cons, List.map_nil, frameText, List.length_append, hv, hsid, hr,
    hb64, List.length_cons, List.length_nil]

theorem drainFuel_spec (p : Nat → Bytes) (fuel : Nat) :
    ∀ (buf : List (Nat × Bytes)) (r : Nat) (T : Finset Nat),
      buf.length ≤ fuel →
      (∀ k, lookupKey k buf = if k ∈ T then some (p k) else none) →
      (∀ k ∈ T, r ≤ k) →
      r ≤ (drainBufferFuel fuel buf r).2.1 ∧
      (drainBufferFuel fuel buf r).2.1 ∉ T ∧
      (∀ n, r ≤ n → n < (drainBufferFuel fuel buf r).2.1 → n ∈ T) ∧
      (drainBufferFuel fuel buf r).2.2
        = (List.range' r ((drainBufferFuel fuel buf r).2.1 - r)).map (fun i => (i, p i)) ∧
      (∀ k, lookupKey k (drainBufferFuel fuel buf r).1
        = if k ∈ T ∧ (drainBufferFuel fuel buf r).2.1 < k then some (p k) else none) := by
  induction fuel with
  | zero =>
    intro buf r T hlen hbuf hT
    have hbe : buf = [] := List.length_eq_zero.mp (Nat.le_zero.mp hlen)
    subst hbe
    have hTe : ∀ k, k ∉ T := by
      intro k hk
      have hb := hbuf k
      rw [if_pos hk] at hb
      simp [lookupKey] at hb
    simp only [drainBufferFuel]
    refine ⟨le_refl r, hTe r, ?_, by simp, ?_⟩
    · intro n hn1 hn2
      exact absurd hn2 (by omega)
    · intro k
      rw [hbuf k]
      simp [hTe k]
  | succ fuel ih =>
    intro buf r T hlen hbuf hT
    cases hl : lookupKey r buf with
    | none =>
      have hrT : r ∉ T := by
        intro hk
        have hb := hbuf r
        rw [if_pos hk, hl] at hb
        exact Option.noConfusion hb
      simp only [drainBufferFuel, hl]
      refine ⟨le_refl r, hrT, ?_, by simp, ?_⟩
      · intro n hn1 hn2
        exact absurd hn2 (by omega)
      · intro k
        rw [hbuf k]
        by_cases hk : k ∈ T
        · have hrk : r ≤ k := hT k hk
          have hne : k ≠ r := fun h => hrT (h ▸ hk)
          have hlt : r < k := by omega
          simp [hk, hlt]
        · simp [hk]
    | some v =>
      have hb := hbuf r
      rw [hl] at hb
      have hrT1 : r ∈ T := by
        by_contra hk
        rw [if_neg hk] at hb
        exact Option.noConfusion hb
      have hrv : v = p r := by
        rw [if_pos hrT1] at hb
        exact Option.some.inj hb
      subst hrv
      have hlen2 : (eraseKey r buf).length ≤ fuel := by
        have := length_eraseKey_lt r buf _ hl
        omega
      have hbuf2 : ∀ k, lookupKey k (eraseKey r buf)
          = if k ∈ T.erase r then some (p k) else none := by
        intro k
        rw [lookupKey_eraseKey]
        by_cases hk : k = r
        · subst hk; simp
        · rw [if_neg hk, hbuf k]
          simp [Finset.mem_erase, hk]
      have hT2 : ∀ k ∈ T.erase r, r + 1 ≤ k := by
        intro k hk
        rw [Finset.mem_erase] at hk
        have h1 := hT k hk.2
        have h2 := hk.1
        omega
      obtain ⟨i1, i2, i3, i4, i5⟩ := ih (eraseKey r buf) (r + 1) (T.erase r) hlen2 hbuf2 hT2
      simp only [drainBufferFuel, hl]
      refine ⟨by omega, ?_, ?_, ?_, ?_⟩
      · intro hk
        have hne : (drainBufferFuel fuel (eraseKey r buf) (r + 1)).2.1 ≠ r := by omega
        exact i2 (Finset.mem_erase.mpr ⟨hne, hk⟩)
      · intro n hn1 hn2
        by_cases hn : n = r
        · subst hn; exact hrT1
        · have hm : n ∈ T.erase r := i3 n (by omega) hn2
          exact (Finset.mem_erase.mp hm).2
      · rw [i4]
        have hsub : (drainBufferFuel fuel (eraseKey r buf) (r + 1)).2.1 - r
            = ((drainBufferFuel fuel (eraseKey r buf) (r + 1)).2.1 - (r + 1)) + 1 := by
          omega
        rw [hsub, List.range'_succ, List.map_cons]
      · intro k
        rw [i5 k]
        by_cases hlt : (drainBufferFuel fuel (eraseKey r buf) (r + 1)).2.1 < k
        · have hne : k ≠ r := by omega
          simp [Finset.mem_erase, hne, hlt]
        · simp [hlt]


theorem handleData_inv (N : Nat) (p : Nat → Bytes) (S : Finset Nat) (st : SeqState)
    (out : List (Nat × Bytes)) (t : Nat)
    (hinv : ReorderInv N p S st out) (htS : t ∉ S) (htN : t < N) :
    ReorderInv N p (insert t S) (handleData st t (p t)).1
      (out ++ (handleData st t (p t)).2) := by
  obtain ⟨ss, r0, buf0⟩ := st
  simp only [ReorderInv] at hinv ⊢
  obtain ⟨h1, h2, h3, h4, h5⟩ := hinv
  dsimp only at h1 h2 h3 h4 h5 ⊢
  by_cases ht : t = r0
  · subst ht
    have hbuf : ∀ k, lookupKey k buf0
        = if k ∈ S.filter (fun k => t < k) then some (p k) else none := by
      intro k
      rw [h5 k]
      simp [Finset.mem_filter]
    have hT : ∀ k ∈ S.filter (fun k => t < k), t + 1 ≤ k := by
      intro k hk
      rw [Finset.mem_filter] at hk
      omega
    obtain ⟨i1, i2, i3, i4, i5⟩ := drainFuel_spec p buf0.length buf0
      (t + 1) (S.filter (fun k => t < k)) (le_refl _) hbuf hT
    simp only [handleData, drainBuffer, eq_self_iff_true, if_true]
    refine ⟨?_, ?_, ?_, ?_, ?_⟩
    · intro i hi
      rcases Nat.lt_trichotomy i t with hc | hc | hc
      · exact Finset.mem_insert_of_mem (h1 i hc)
      · subst hc; exact Finset.mem_insert_self i S
      · have hm := i3 i (by omega) hi
        rw [Finset.mem_filter] at hm
        exact Finset.mem_insert_of_mem hm.1
    · intro hk
      rcases Finset.mem_insert.mp hk with hc | hc
      · omega
      · exact i2 (Finset.mem_filter.mpr ⟨hc, by omega⟩)
    · intro k hk
      rcases Finset.mem_insert.mp hk with hc | hc
      · subst hc; exact htN
      · exact h3 k hc
    · rw [h4, i4, List.range_eq_range', List.range_eq_range']
      have hsum : t + ((drainBufferFuel buf0.length buf0 (t + 1)).2.1 - t)
          = (drainBufferFuel buf0.length buf0 (t + 1)).2.1 := by omega
      have hsplit := range'_append_own 0 t
        ((drainBufferFuel buf0.length buf0 (t + 1)).2.1 - t)
      rw [Nat.zero_add, hsum] at hsplit
      rw [← hsplit, List.map_append]
      have hs2 : (drainBufferFuel buf0.length buf0 (t + 1)).2.1 - t
          = ((drainBufferFuel buf0.length buf0 (t + 1)).2.1 - (t + 1)) + 1 := by
        omega
      rw [hs2, List.range'_succ, List.map_cons]
    · intro k
      rw [i5 k]
      by_cases hlt : (drainBufferFuel buf0.length buf0 (t + 1)).2.1 < k
      · have hne : ¬(k = t) := by omega
        have hrk : t < k := by omega
        simp [Finset.mem_filter, Finset.mem_insert, hne, hlt, hrk]
      · simp [hlt]
  · have hrt : r0 < t := by
      rcases Nat.lt_trichotomy t r0 with hc | hc | hc
      · exact absurd (h1 t hc) htS
      · exact absurd hc ht
      · exact hc
    simp only [handleData]
    rw [if_neg ht]
    dsimp only
    rw [List.append_nil]
    refine ⟨?_, ?_, ?_, h4, ?_⟩
    · intro i hi
      exact Finset.mem_insert_of_mem (h1 i hi)
    · intro hk
      rcases Finset.mem_insert.mp hk with hc | hc
      · omega
      · exact h2 hc
    · intro k hk
      rcases Finset.mem_insert.mp hk with hc | hc
      · subst hc; exact htN
      · exact h3 k hc
    · intro k
      rw [lookupKey_insertKey]
      by_cases hk : k = t
      · subst hk
        simp [Finset.mem_insert_self, hrt]
      · rw [if_neg hk, h5 k]
        simp [Finset.mem_insert, hk]

theorem processFrames_inv (N : Nat) (p : Nat → Bytes) :
    ∀ (l : List (Nat × Bytes)) (S : Finset Nat) (st : SeqState) (out : List (Nat × Bytes)),
      ReorderInv N p S st out →
      (∀ x ∈ l, x.1 < N ∧ x.1 ∉ S ∧ x.2 = p x.1) →
      (l.map Prod.fst).Nodup →
      (∀ i, i < N → i ∉ S → i ∈ l.map Prod.fst) →
      (processFrames st l).1.recvSeq = N ∧
      out ++ (processFrames st l).2 = (List.range N).map (fun i => (i, p i)) := by
  intro l
  induction l with
  | nil =>
    intro S st out hinv hmem hnd hcov
    simp only [ReorderInv] at hinv
    obtain ⟨h1, h2, h3, h4, h5⟩ := hinv
    have hSN : ∀ i, i < N → i ∈ S := by
      intro i hi
      by_contra hnot
      have hm := hcov i hi hnot
      simp at hm
    have hrN : st.recvSeq = N := by
      have hle : st.recvSeq ≤ N := by
        by_contra hgt
        push_neg at hgt
        have := h3 N (h1 N hgt)
        omega
      have hge : N ≤ st.recvSeq := by
        by_contra hlt
        push_neg at hlt
        exact h2 (hSN st.recvSeq hlt)
      omega
    refine ⟨hrN, ?_⟩
    simp only [processFrames, List.append_nil]
    rw [h4, hrN]
  | cons f rest ih =>
    intro S st out hinv hmem hnd hcov
    obtain ⟨hfN, hfS, hfp⟩ := hmem f (List.mem_cons_self f rest)
    have hstep := handleData_inv N p S st out f.1 hinv hfS hfN
    rw [← hfp] at hstep
    simp only [List.map_cons, List.nodup_cons] at hnd
    obtain ⟨hndh, hndt⟩ := hnd
    have hmem2 : ∀ x ∈ rest, x.1 < N ∧ x.1 ∉ insert f.1 S ∧ x.2 = p x.1 := by
      intro x hx
      obtain ⟨a, b, c⟩ := hmem x (List.mem_cons_of_mem f hx)
      refine ⟨a, ?_, c⟩
      rw [Finset.mem_insert]
      push_neg
      exact ⟨fun he => hndh (he ▸ List.mem_map_of_mem Prod.fst hx), b⟩
    have hcov2 : ∀ i, i < N → i ∉ insert f.1 S → i ∈ rest.map Prod.fst := by
      intro i hi hni
      rw [Finset.mem_insert] at hni
      push_neg at hni
      have hm := hcov i hi hni.2
      simp only [List.map_cons, List.mem_cons] at hm
      rcases hm with hm | hm
      · exact absurd hm hni.1
      · exact hm
    obtain ⟨j1, j2⟩ := ih (insert f.1 S) (handleData st f.1 f.2).1
      (out ++ (handleData st f.1 f.2).2) hstep hmem2 hndt hcov2
    constructor
    · simpa only [processFrames] using j1
    · simp only [processFrames]
      rw [← List.append_assoc]
      exact j2

/-- Claim C5: reorder correctness.  For a fresh stream and ANY arrival
permutation of the data frames `(i, p i)` for `i < N` (distinct sequence
numbers `0..N-1`), the receiver delivers exactly the payloads sorted by
`seq`, in `recv_seq` order: the delivered (tag, chunk) list is
`(0, p 0), (1, p 1), …`, the chunk sequence is `p 0, …, p (N-1)`, and
`recv_seq` ends at `N`. -/
theorem reorder_correct (N : Nat) (p : Nat → Bytes) (l : List (Nat × Bytes))
    (hl : l.Perm ((List.range N).map fun i => (i, p i))) :
    (processFrames ⟨0, 0, []⟩ l).2 = (List.range N).map (fun i => (i, p i)) ∧
    ((processFrames ⟨0, 0, []⟩ l).2).map Prod.snd = (List.range N).map p ∧
    (processFrames ⟨0, 0, []⟩ l).1.recvSeq = N := by
  have hinv : ReorderInv N p ∅ ⟨0, 0, []⟩ [] := by
    simp [ReorderInv, lookupKey]
  have hmem : ∀ x ∈ l, x.1 < N ∧ x.1 ∉ (∅ : Finset Nat) ∧ x.2 = p x.1 := by
    intro x hx
    rw [hl.mem_iff] at hx
    simp only [List.mem_map, List.mem_range] at hx
    obtain ⟨i, hi, rfl⟩ := hx
    exact ⟨hi, by simp, rfl⟩
  have hfst : (l.map Prod.fst).Perm (List.range N) := by
    have h := hl.map Prod.fst
    have hm : ∀ r : List Nat, (r.map fun i => (i, p i)).map Prod.fst = r := by
      intro r
      induction r with
      | nil => rfl
      | cons a rt ihr => simp [ihr]
    rw [hm (List.range N)] at h
    exact h
  have hnd : (l.map Prod.fst).Nodup := hfst.nodup_iff.mpr (List.nodup_range N)
  have hcov : ∀ i, i < N → i ∉ (∅ : Finset Nat) → i ∈ l.map Prod.fst := by
    intro i hi _
    rw [hfst.mem_iff]
    exact List.mem_range.mpr hi
  obtain ⟨j1, j2⟩ := processFrames_inv N p l ∅ ⟨0, 0, []⟩ [] hinv hmem hnd hcov
  rw [List.nil_append] at j2
  refine ⟨j2, ?_, j1⟩
  rw [j2, List.map_map]
  rfl

/-- Witness for `reorder_correct`: the spec's scenario S3 — three frames for
a fresh stream arriving in the order `1, 0, 2` are delivered as `0, 1, 2`. -/
theorem reorder_correct_witness :
    ([((1 : Nat), ([1] : Bytes)), (0, [0]), (2, [2])].Perm
        ((List.range 3).map fun i => (i, ([i] : Bytes)))) ∧
    ((processFrames ⟨0, 0, []⟩ [(1, [1]), (0, [0]), (2, [2])]).2
        = (List.range 3).map (fun i => (i, ([i] : Bytes))) ∧
     ((processFrames ⟨0, 0, []⟩ [(1, [1]), (0, [0]), (2, [2])]).2).map Prod.snd
        = (List.range 3).map (fun i => ([i] : Bytes)) ∧
     (processFrames ⟨0, 0, []⟩ [(1, [1]), (0, [0]), (2, [2])]).1.recvSeq = 3) :=
  ⟨by decide, reorder_correct 3 (fun i => [i]) [(1, [1]), (0, [0]), (2, [2])] (by decide)⟩
